import Mathlib

/-!
Verification development for the "Pending Claims on Doctors Summarizer"
(src/app.py).  The program is a linear pipeline: load a spreadsheet, trim the
header names, keep only "in progress" claims, compute days since the last
update, project to three columns, sort, aggregate per doctor, and build a
report document (title, summary table, per-doctor detail tables with an
overdue marker and row highlighting).

The embedding below mirrors the pandas/reportlab code:
* a table is a header list plus a list of rows (`InputTable`);
* the `last_updated_at` cell is modelled at day granularity as either a
  parsed date (`Timestamp.ok`, the day number) or unparseable raw text
  (`Timestamp.bad`) — `pd.to_datetime(...)` with the default `errors="raise"`
  fails on the first unparseable value (app.py line 41);
* column access on a missing column raises a `KeyError` naming the column;
  this is `PipelineError.missingColumn` (app.py lines 36, 41, 45);
* `df.sort_values` on several keys performs a stable lexicographic sort
  (numpy `lexsort`), embedded as an insertion sort by the lexicographic
  order `claimLe` (app.py line 47);
* `df.groupby(col)` enumerates the distinct keys in ascending order and each
  group keeps the current frame order (app.py lines 54 and 101); this is
  `distinctDoctors` / `doctorGroup`;
* the generated story (title, summary table data, detail table data plus the
  set of highlighted row indices computed by the `"⚠️" in str(row[1])` scan
  at app.py line 126) is the `Doc` structure.
-/

/-- A value of the `last_updated_at` column: either text that parses to a
date (represented by the date as a day number) or unparseable raw text. -/
inductive Timestamp where
  | ok : Int → Timestamp
  | bad : String → Timestamp
deriving DecidableEq

/-- One row of the uploaded spreadsheet, with the four columns the program
reads.  Whether a column is actually present in the file is recorded in
`InputTable.headers`; the pipeline fails before reading a field whose column
is absent. -/
structure Row where
  claimStatus : String
  assigned_to_doctor : String
  claim_id : String
  last_updated_at : Timestamp
deriving DecidableEq

/-- The uploaded table: raw header names (before trimming) and the rows. -/
structure InputTable where
  headers : List String
  rows : List Row
deriving DecidableEq

/-- An enriched, projected claim: the three columns kept at app.py line 45. -/
structure Claim where
  assigned_to_doctor : String
  claim_id : String
  days_since_updated : Int
deriving DecidableEq

/-- Errors the run can abort with: a `KeyError` on a missing column, or a
date-parse failure from `pd.to_datetime` carrying the offending raw text. -/
inductive PipelineError where
  | missingColumn : String → PipelineError
  | parseError : String → PipelineError
deriving DecidableEq

/-- Embedding of pandas `Series.str.lower()`: lower-case every character. -/
def strLower (s : String) : String := ⟨s.data.map Char.toLower⟩

/-- Drop leading and trailing whitespace from a character list. -/
def trimChars (l : List Char) : List Char :=
  ((l.dropWhile Char.isWhitespace).reverse.dropWhile Char.isWhitespace).reverse

/-- Embedding of `str.strip()`: drop surrounding whitespace. -/
def strTrim (s : String) : String := ⟨trimChars s.data⟩

/-- app.py line 31: `df.columns = df.columns.str.strip()`. -/
def trimHeaders (t : InputTable) : InputTable :=
  { t with headers := t.headers.map strTrim }

/-- app.py line 36: `df = df[df["claimStatus"].str.lower() == "in progress"]`. -/
def filterInProgress (rows : List Row) : List Row :=
  rows.filter (fun r => strLower r.claimStatus == "in progress")

/-- app.py lines 41-43: parse the `last_updated_at` column (failing on the
first unparseable value, as `pd.to_datetime` does with the default
`errors="raise"`) and compute `days_since_updated = today - parsed date`. -/
def parseDays (today : Int) : List Row → Except PipelineError (List (Row × Int))
  | [] => .ok []
  | r :: rs =>
    match r.last_updated_at with
    | .bad raw => .error (.parseError raw)
    | .ok date =>
      match parseDays today rs with
      | .error e => .error e
      | .ok rest => .ok ((r, today - date) :: rest)

/-- app.py line 45: keep the columns `assigned_to_doctor`, `claim_id`,
`days_since_updated`. -/
def project (l : List (Row × Int)) : List Claim :=
  l.map (fun p => ⟨p.1.assigned_to_doctor, p.1.claim_id, p.2⟩)

/-- The ordering used at app.py line 47: `assigned_to_doctor` ascending, then
`days_since_updated` descending. -/
def claimLe (a b : Claim) : Prop :=
  a.assigned_to_doctor < b.assigned_to_doctor ∨
    (a.assigned_to_doctor = b.assigned_to_doctor ∧
      b.days_since_updated ≤ a.days_since_updated)

instance : DecidableRel claimLe := fun a b =>
  inferInstanceAs (Decidable (a.assigned_to_doctor < b.assigned_to_doctor ∨
    (a.assigned_to_doctor = b.assigned_to_doctor ∧
      b.days_since_updated ≤ a.days_since_updated)))

instance : IsTotal Claim claimLe where
  total a b := by
    rcases lt_trichotomy a.assigned_to_doctor b.assigned_to_doctor with h | h | h
    · exact Or.inl (Or.inl h)
    · rcases Int.le_total b.days_since_updated a.days_since_updated with hd | hd
      · exact Or.inl (Or.inr ⟨h, hd⟩)
      · exact Or.inr (Or.inr ⟨h.symm, hd⟩)
    · exact Or.inr (Or.inl h)

instance : IsTrans Claim claimLe where
  trans a b c hab hbc := by
    rcases hab with hab | ⟨hab, hd1⟩
    · rcases hbc with hbc | ⟨hbc, _⟩
      · exact Or.inl (hab.trans hbc)
      · exact Or.inl (hbc ▸ hab)
    · rcases hbc with hbc | ⟨hbc, hd2⟩
      · exact Or.inl (hab ▸ hbc)
      · exact Or.inr ⟨hab.trans hbc, hd2.trans hd1⟩

/-- app.py line 47: `df.sort_values(by=["assigned_to_doctor",
"days_since_updated"], ascending=[True, False])`.  A multi-key
`sort_values` is a stable lexicographic sort (numpy `lexsort`), so any
stable sort by `claimLe` is a faithful embedding. -/
def sortClaims (l : List Claim) : List Claim := List.insertionSort claimLe l

/-- The distinct group keys of `df.groupby("assigned_to_doctor")`, which
pandas enumerates in ascending order (app.py lines 54 and 101). -/
def distinctDoctors (claims : List Claim) : List String :=
  List.insertionSort (· ≤ ·) ((claims.map (·.assigned_to_doctor)).dedup)

/-- The rows of one groupby group, in the frame's current order. -/
def doctorGroup (claims : List Claim) (d : String) : List Claim :=
  claims.filter (·.assigned_to_doctor == d)

/-- One row of `summary_df` (app.py lines 54-57). -/
structure SummaryRow where
  assigned_to_doctor : String
  total_claims : Nat
  overdue_claims : Nat
deriving DecidableEq

/-- The aggregation predicate of app.py line 56 (`x > pending_threshold`)
and of the highlight branch at line 109 (`days > pending_threshold`):
strictly greater than the threshold. -/
def overduePred (t days : Int) : Bool := decide (t < days)

/-- app.py lines 54-57: group the frame by doctor and aggregate
`total_claims` (count) and `overdue_claims` (count of days strictly above
the threshold). -/
def summarize (t : Int) (claims : List Claim) : List SummaryRow :=
  (distinctDoctors claims).map (fun d =>
    let g := doctorGroup claims d
    ⟨d, g.length, (g.filter (fun r => overduePred t r.days_since_updated)).length⟩)

/-- A table cell of the built report: the code puts either a Python int
(`days`) or a string into `table_data` / `summary_table_data`. -/
inductive CellVal where
  | int : Int → CellVal
  | str : String → CellVal
deriving DecidableEq

/-- Python `str()` applied to an int: the decimal representation. -/
def intStr (d : Int) : String := Int.repr d

/-- Python `str()` applied to a cell value (app.py line 126 applies `str` to
`row[1]`, which holds either an int or an already-formatted string). -/
def cellStr : CellVal → String
  | .int d => intStr d
  | .str s => s

/-- The warning marker the code appends to overdue rows (app.py line 111)
and scans for (line 126). -/
def warnMarker : String := "⚠️"

/-- Does `pat` occur at the start of `l`? -/
def charsStartWith : List Char → List Char → Bool
  | [], _ => true
  | _ :: _, [] => false
  | p :: ps, c :: cs => p == c && charsStartWith ps cs

/-- Does `pat` occur contiguously anywhere in `l`?  (Python's `in` on
strings is a substring test.) -/
def charsContain (pat : List Char) : List Char → Bool
  | [] => charsStartWith pat []
  | c :: cs => charsStartWith pat (c :: cs) || charsContain pat cs

/-- Embedding of Python `"⚠️" in s` (app.py line 126). -/
def containsMarker (s : String) : Bool := charsContain warnMarker.data s.data

/-- The highlight decision of app.py line 126: `"⚠️" in str(row[1])`,
applied to the second cell of a detail-table row. -/
def markerHighlight (c : CellVal) : Bool := containsMarker (cellStr c)

/-- The days cell built at app.py lines 109-114: the string
`f"{days} ⚠️"` when `days > pending_threshold`, otherwise the bare int. -/
def detailCell (t days : Int) : CellVal :=
  if overduePred t days then .str (intStr days ++ " ⚠️") else .int days

/-- Header row of each detail table (app.py line 105). -/
def detailHeader : List CellVal := [.str "Claim ID", .str "Days since updated"]

/-- `row[1]` of a detail-table row. -/
def rowCell1 (row : List CellVal) : CellVal := (row.drop 1).headD (.str "")

/-- One per-doctor detail section of the story: the heading (line 102), the
table data (lines 105-114) and the list of 1-based row indices the style
loop highlights (lines 124-127). -/
structure DetailSection where
  heading : String
  table : List (List CellVal)
  highlighted : List Nat
deriving DecidableEq

/-- Build one doctor's detail section (app.py lines 101-131). -/
def buildSection (t : Int) (d : String) (claims : List Claim) : DetailSection :=
  let body := claims.map (fun r => [CellVal.str r.claim_id, detailCell t r.days_since_updated])
  { heading := d
    table := detailHeader :: body
    highlighted := (body.enumFrom 1).filterMap
      (fun p => if markerHighlight (rowCell1 p.2) then some p.1 else none) }

/-- The report title (app.py line 73). -/
def reportTitle : String := "Pending on Doctors – Report"

/-- Header row of the summary table (app.py line 80), including the
threshold interpolated into the third column label. -/
def summaryHeaderRow (t : Int) : List CellVal :=
  [.str "Doctor", .str "Total Claims", .str ("Pending > " ++ intStr t ++ " days")]

/-- The built story: title, summary table data and detail sections.  This is
the document handed to the reportlab renderer. -/
structure Doc where
  title : String
  summaryTable : List (List CellVal)
  details : List DetailSection
deriving DecidableEq

/-- app.py lines 65-135 (`generate_pdf`), minus the external reportlab
serialization: assemble the story from the sorted frame and the summary
frame. -/
def buildDoc (t : Int) (summary : List SummaryRow) (claims : List Claim) : Doc :=
  { title := reportTitle
    summaryTable := summaryHeaderRow t ::
      summary.map (fun s =>
        [CellVal.str s.assigned_to_doctor, CellVal.int (s.total_claims : Int),
          CellVal.int (s.overdue_claims : Int)])
    details := (distinctDoctors claims).map
      (fun d => buildSection t d (doctorGroup claims d)) }

/-- The required columns, in the order the script first touches them
(line 36, line 41, then the projection at line 45). -/
def requiredCols : List String :=
  ["claimStatus", "last_updated_at", "assigned_to_doctor", "claim_id"]

/-- The whole run on one uploaded table (app.py lines 26-137): trim headers,
filter, enrich, project, sort, aggregate, build the document.  Returns the
processed frame (also shown as the preview at line 150), the summary frame
and the built document, or the error the run aborts with.  Column accesses
are checked in the order the script performs them. -/
def runPipeline (today t : Int) (tbl0 : InputTable) :
    Except PipelineError (List Claim × List SummaryRow × Doc) :=
  let tbl := trimHeaders tbl0
  if "claimStatus" ∈ tbl.headers then
    let rows := filterInProgress tbl.rows
    if "last_updated_at" ∈ tbl.headers then
      match parseDays today rows with
      | .error e => .error e
      | .ok enriched =>
        if "assigned_to_doctor" ∈ tbl.headers then
          if "claim_id" ∈ tbl.headers then
            let claims := sortClaims (project enriched)
            let summary := summarize t claims
            .ok (claims, summary, buildDoc t summary claims)
          else .error (.missingColumn "claim_id")
        else .error (.missingColumn "assigned_to_doctor")
    else .error (.missingColumn "last_updated_at")
  else .error (.missingColumn "claimStatus")

/-! Helper lemmas about the decimal representation, the marker scan, the
stable sort and the parse step. -/

theorem digitChar_ne_warn (m : Nat) : Nat.digitChar m ≠ '⚠' := by
  rcases m with _|_|_|_|_|_|_|_|_|_|_|_|_|_|_|_|m
  case succ =>
    show (if m + 16 = 0 then '0' else _) ≠ '⚠'
    repeat rw [if_neg (by omega)]
    decide
  all_goals decide

theorem toDigitsCore_mem (b : Nat) (fuel : Nat) : ∀ (n : Nat) (ds : List Char) (c : Char),
    c ∈ Nat.toDigitsCore b fuel n ds → c ∈ ds ∨ ∃ m, c = Nat.digitChar m := by
  induction fuel with
  | zero => intro n ds c h; exact Or.inl h
  | succ fuel ih =>
    intro n ds c h
    unfold Nat.toDigitsCore at h
    dsimp only at h
    split at h
    · rcases List.mem_cons.mp h with h | h
      · exact Or.inr ⟨n % b, h⟩
      · exact Or.inl h
    · rcases ih (n / b) (Nat.digitChar (n % b) :: ds) c h with h | h
      · rcases List.mem_cons.mp h with h | h
        · exact Or.inr ⟨n % b, h⟩
        · exact Or.inl h
      · exact Or.inr h

theorem warn_not_mem_natRepr (n : Nat) : '⚠' ∉ (Nat.repr n).data := by
  intro h
  rcases toDigitsCore_mem 10 (n + 1) n [] '⚠' h with h | ⟨m, hm⟩
  · exact absurd h (List.not_mem_nil _)
  · exact digitChar_ne_warn m hm.symm

theorem warn_not_mem_intStr (d : Int) : '⚠' ∉ (intStr d).data := by
  cases d with
  | ofNat m => exact warn_not_mem_natRepr m
  | negSucc m =>
    intro h
    have hd : (intStr (Int.negSucc m)).data = "-".data ++ (Nat.repr (m + 1)).data :=
      String.data_append "-" (Nat.repr (m + 1))
    rw [hd] at h
    rcases List.mem_append.mp h with h | h
    · revert h; decide
    · exact warn_not_mem_natRepr (m + 1) h

theorem charsStartWith_append (pat rest : List Char) :
    charsStartWith pat (pat ++ rest) = true := by
  induction pat with
  | nil => rfl
  | cons p ps ih => simp [charsStartWith, ih]

theorem charsContain_of_startsWith (pat l : List Char) (h : charsStartWith pat l = true) :
    charsContain pat l = true := by
  cases l with
  | nil => exact h
  | cons c cs => simp [charsContain, h]

theorem charsContain_append (pat pre rest : List Char) :
    charsContain pat (pre ++ (pat ++ rest)) = true := by
  induction pre with
  | nil => exact charsContain_of_startsWith _ _ (charsStartWith_append pat rest)
  | cons c cs ih => simp [charsContain, ih]

theorem charsContain_eq_false (p : Char) (ps l : List Char) (hp : p ∉ l) :
    charsContain (p :: ps) l = false := by
  induction l with
  | nil => rfl
  | cons c cs ih =>
    have hpc : (p == c) = false := by
      have : p ≠ c := fun h => hp (h ▸ List.mem_cons_self p cs)
      simpa using this
    have hcs : charsContain (p :: ps) cs = false :=
      ih (fun h => hp (List.mem_cons_of_mem c h))
    simp [charsContain, charsStartWith, hpc, hcs]

theorem containsMarker_append_marker (s : String) : containsMarker (s ++ " ⚠️") = true := by
  unfold containsMarker
  rw [String.data_append]
  have h2 : (" ⚠️").data = [' '] ++ (warnMarker.data ++ []) := by decide
  rw [h2, ← List.append_assoc]
  exact charsContain_append warnMarker.data (s.data ++ [' ']) []

theorem containsMarker_intStr (d : Int) : containsMarker (intStr d) = false := by
  unfold containsMarker
  have hm : warnMarker.data = '⚠' :: ['️'] := by decide
  rw [hm]
  exact charsContain_eq_false _ _ _ (warn_not_mem_intStr d)

theorem markerHighlight_detailCell (t days : Int) :
    markerHighlight (detailCell t days) = overduePred t days := by
  cases hb : overduePred t days with
  | false => simp [detailCell, hb, markerHighlight, cellStr, containsMarker_intStr]
  | true => simp [detailCell, hb, markerHighlight, cellStr, containsMarker_append_marker]

theorem filter_orderedInsert {α : Type} (r : α → α → Prop) [DecidableRel r]
    (p : α → Bool) (x : α) (l : List α)
    (H : p x = true → ∀ y ∈ l, p y = true → r x y) :
    (List.orderedInsert r x l).filter p =
      if p x then x :: l.filter p else l.filter p := by
  induction l with
  | nil => simp [List.orderedInsert, List.filter_cons]
  | cons b bs ih =>
    unfold List.orderedInsert
    split
    · rw [List.filter_cons]
    · rename_i hrxb
      have ih2 := ih (fun hpx y hy hpy => H hpx y (List.mem_cons_of_mem _ hy) hpy)
      by_cases hpx : p x = true
      · have hpb : p b = false := by
          rcases Bool.eq_false_or_eq_true (p b) with hpb | hpb
          · exact absurd (H hpx b (List.mem_cons_self b bs) hpb) hrxb
          · exact hpb
        simp [List.filter_cons, hpb, ih2, hpx]
      · have hpx2 : p x = false := by simpa using hpx
        simp [List.filter_cons, hpx2, ih2]

theorem filter_insertionSort {α : Type} (r : α → α → Prop) [DecidableRel r]
    (p : α → Bool) (H : ∀ x y, p x = true → p y = true → r x y) (l : List α) :
    (List.insertionSort r l).filter p = l.filter p := by
  induction l with
  | nil => rfl
  | cons x xs ih =>
    show (List.orderedInsert r x (List.insertionSort r xs)).filter p = _
    rw [filter_orderedInsert r p x _ (fun hpx y _ hpy => H x y hpx hpy), ih,
      List.filter_cons]

theorem distinctDoctors_sorted (claims : List Claim) :
    List.Pairwise (· < ·) (distinctDoctors claims) := by
  have hs : List.Sorted (· ≤ ·) (distinctDoctors claims) :=
    List.sorted_insertionSort _ _
  have hn : (distinctDoctors claims).Nodup :=
    ((List.perm_insertionSort _ _).nodup_iff).mpr (List.nodup_dedup _)
  exact hs.lt_of_le hn

/-- Is this timestamp value unparseable? -/
def isBadTs : Timestamp → Bool
  | .ok _ => false
  | .bad _ => true

theorem parseDays_error (today : Int) (rows : List Row)
    (h : ∃ r ∈ rows, isBadTs r.last_updated_at = true) :
    ∃ raw, parseDays today rows = .error (.parseError raw) ∧
      ∃ r ∈ rows, r.last_updated_at = .bad raw := by
  induction rows with
  | nil => rcases h with ⟨r, hr, _⟩; exact absurd hr (List.not_mem_nil _)
  | cons r rs ih =>
    cases hts : r.last_updated_at with
    | bad raw =>
      refine ⟨raw, ?_, r, List.mem_cons_self r rs, hts⟩
      unfold parseDays
      rw [hts]
    | ok date =>
      have h2 : ∃ x ∈ rs, isBadTs x.last_updated_at = true := by
        rcases h with ⟨x, hx, hbad⟩
        rcases List.mem_cons.mp hx with rfl | hx
        · rw [hts] at hbad; simp [isBadTs] at hbad
        · exact ⟨x, hx, hbad⟩
      rcases ih h2 with ⟨raw, herr, x, hx, hraw⟩
      refine ⟨raw, ?_, x, List.mem_cons_of_mem _ hx, hraw⟩
      unfold parseDays
      rw [hts, herr]

/-! The claims. -/

/-- Status normalization as the spec words it (claim C1): lower-case, then
trim surrounding whitespace.  Stated here only to compare with the code; the
code (app.py line 36) lower-cases but never trims. -/
def specStatusNorm (s : String) : String := strTrim (strLower s)

/-- A record whose status normalizes (per the spec) to "in progress" but
carries surrounding whitespace. -/
def c1Row : Row :=
  { claimStatus := " In Progress", assigned_to_doctor := "Dr. A",
    claim_id := "C-1", last_updated_at := .ok 0 }

/-- Claim C1 is false as stated: this record's status lower-cases and trims
to "in progress", so the claim says it must be kept, but the filter at
app.py line 36 compares the lower-cased status without trimming and drops
it. -/
theorem c1_counterexample :
    specStatusNorm c1Row.claimStatus = "in progress" ∧
      filterInProgress [c1Row] = [] := by
  constructor
  · decide
  · decide

/-- Claim C1 (amended): the filter keeps a record iff its status field,
lower-cased (with no trimming), equals "in progress"; consequently every
kept record's lower-cased-and-trimmed status is "in progress", so no other
normalized status value appears in the filtered output. -/
theorem c1_filter_iff (rows : List Row) (r : Row) :
    (r ∈ filterInProgress rows ↔
      r ∈ rows ∧ strLower r.claimStatus = "in progress") ∧
    (r ∈ filterInProgress rows →
      strTrim (strLower r.claimStatus) = "in progress") := by
  constructor
  · simp [filterInProgress, List.mem_filter]
  · intro hr
    have h2 : (strLower r.claimStatus == "in progress") = true :=
      (List.mem_filter.mp hr).2
    rw [beq_iff_eq] at h2
    rw [h2]
    decide

/-- A record the filter keeps. -/
def c1KeptRow : Row :=
  { claimStatus := "In Progress", assigned_to_doctor := "Dr. B",
    claim_id := "C-2", last_updated_at := .ok 0 }

theorem c1_filter_iff_witness :
    c1KeptRow ∈ filterInProgress [c1KeptRow] ∧
      strTrim (strLower c1KeptRow.claimStatus) = "in progress" :=
  ⟨by decide, (c1_filter_iff [c1KeptRow] c1KeptRow).2 (by decide)⟩

/-- Claim C2: the overdue boundary is strict in both the aggregation count
predicate (app.py line 56) and the detail-row highlight decision (the
marker-substring scan at line 126 applied to the cell built at lines
109-114): a claim is overdue iff `days > threshold`, the two decisions are
the identical comparison, and at `days = threshold` neither counts nor
highlights. -/
theorem c2_strict_boundary (t days : Int) :
    (overduePred t days = true ↔ t < days) ∧
    markerHighlight (detailCell t days) = overduePred t days ∧
    (days = t →
      overduePred t days = false ∧ markerHighlight (detailCell t days) = false) := by
  refine ⟨by simp [overduePred], markerHighlight_detailCell t days, ?_⟩
  intro hdt
  rw [hdt]
  have h : overduePred t t = false := by simp [overduePred]
  exact ⟨h, by rw [markerHighlight_detailCell, h]⟩

theorem c2_strict_boundary_witness :
    overduePred 30 30 = false ∧ markerHighlight (detailCell 30 30) = false :=
  (c2_strict_boundary 30 30).2.2 rfl

/-- Claim C3: every summary row satisfies `overdue_claims ≤ total_claims`,
`total_claims` is the number of (filtered) claims in that doctor's group,
and `overdue_claims` is the number of those claims with
`days_since_updated > threshold` (app.py lines 54-57). -/
theorem c3_summary_invariants (t : Int) (claims : List Claim) (s : SummaryRow)
    (hs : s ∈ summarize t claims) :
    s.total_claims = (doctorGroup claims s.assigned_to_doctor).length ∧
    s.overdue_claims = ((doctorGroup claims s.assigned_to_doctor).filter
      (fun r => decide (t < r.days_since_updated))).length ∧
    s.overdue_claims ≤ s.total_claims := by
  rcases List.mem_map.mp hs with ⟨d, _, rfl⟩
  exact ⟨rfl, rfl, List.length_filter_le _ _⟩

/-- Two claims for one doctor, one overdue at threshold 30. -/
def c3Claims : List Claim :=
  [⟨"Dr. A", "1", 40⟩, ⟨"Dr. A", "2", 5⟩]

theorem c3_summary_invariants_witness :
    (⟨"Dr. A", 2, 1⟩ : SummaryRow).total_claims =
        (doctorGroup c3Claims "Dr. A").length ∧
    (⟨"Dr. A", 2, 1⟩ : SummaryRow).overdue_claims =
        ((doctorGroup c3Claims "Dr. A").filter
          (fun r => decide ((30 : Int) < r.days_since_updated))).length ∧
    (⟨"Dr. A", 2, 1⟩ : SummaryRow).overdue_claims ≤
        (⟨"Dr. A", 2, 1⟩ : SummaryRow).total_claims :=
  c3_summary_invariants 30 c3Claims ⟨"Dr. A", 2, 1⟩ (by decide)

/-- Does a claim have exactly this (doctor, days) sort key? -/
def claimKeyP (d : String) (n : Int) (c : Claim) : Bool :=
  c.assigned_to_doctor == d && c.days_since_updated == n

/-- Claim C4: the sort at app.py line 47 orders the output by
`assigned_to_doctor` ascending then `days_since_updated` descending
(`claimLe`), and it is stable: the records carrying any fixed
(doctor, days) key appear in the output exactly in their input order. -/
theorem c4_sort_stable (claims : List Claim) :
    List.Pairwise claimLe (sortClaims claims) ∧
    ∀ d n, (sortClaims claims).filter (claimKeyP d n) =
      claims.filter (claimKeyP d n) := by
  constructor
  · exact List.sorted_insertionSort claimLe claims
  · intro d n
    apply filter_insertionSort
    intro x y hx hy
    simp only [claimKeyP, Bool.and_eq_true, beq_iff_eq] at hx hy
    exact Or.inr ⟨hx.1.trans hy.1.symm, le_of_eq (hy.2.trans hx.2.symm)⟩

theorem enumFrom_map_filterMap {α β : Type} (g : α → β) (q : β → Bool) :
    ∀ (l : List α) (i : Nat),
    ((l.map g).enumFrom i).filterMap (fun p => if q p.2 then some p.1 else none) =
      ((l.enumFrom i).filter (fun p => q (g p.2))).map (fun p => p.1) := by
  intro l
  induction l with
  | nil => intro i; rfl
  | cons x xs ih =>
    intro i
    simp only [List.map_cons, List.enumFrom, List.filterMap_cons, List.filter_cons]
    cases hq : q (g x) with
    | false => simpa using ih (i + 1)
    | true => simpa using ih (i + 1)

/-- Claim C5 is false as stated: the document model built by `generate_pdf`
stores a detail row as a pair of cells, encoding overdue status only inside
the rendered text of the days cell (the appended " ⚠️" of app.py line 111);
there is no boolean flag, and the highlight decision at line 126 is a
substring scan of the rendered text.  Concretely: the row built for
days = 40 at threshold 30 is the bare string cell "40 ⚠️", and the scan
gives different answers on cells that render the same day count 40,
depending only on their text. -/
theorem c5_counterexample :
    detailCell 30 40 = CellVal.str "40 ⚠️" ∧
    markerHighlight (CellVal.str "40 ⚠️") = true ∧
    markerHighlight (CellVal.int 40) = false ∧
    markerHighlight (CellVal.str "40") = false := by
  refine ⟨by decide, by decide, by decide, by decide⟩

/-- Claim C5 (amended): the built document model carries overdue status only
as the rendered " ⚠️" marker in the days cell, and the renderer's highlight
decision is inferred from that rendered text by a substring scan
(app.py line 126); nevertheless, for every row the Document Builder
produces, the scan highlights exactly the rows whose claim has
`days_since_updated > threshold`. -/
theorem c5_highlight_rows (t : Int) (d : String) (claims : List Claim) :
    (buildSection t d claims).table =
      detailHeader :: claims.map
        (fun r => [CellVal.str r.claim_id, detailCell t r.days_since_updated]) ∧
    (buildSection t d claims).highlighted =
      ((claims.enumFrom 1).filter
        (fun p => overduePred t p.2.days_since_updated)).map (fun p => p.1) := by
  refine ⟨rfl, ?_⟩
  show ((claims.map (fun r => [CellVal.str r.claim_id, detailCell t r.days_since_updated])).enumFrom 1).filterMap
      (fun p => if markerHighlight (rowCell1 p.2) then some p.1 else none) = _
  rw [enumFrom_map_filterMap
    (fun r => [CellVal.str r.claim_id, detailCell t r.days_since_updated])
    (fun row => markerHighlight (rowCell1 row)) claims 1]
  congr 1
  apply List.filter_congr
  intro p _
  show markerHighlight (rowCell1 [CellVal.str p.2.claim_id, detailCell t p.2.days_since_updated]) = _
  show markerHighlight (detailCell t p.2.days_since_updated) = _
  rw [markerHighlight_detailCell]


instance {ε α : Type} [DecidableEq ε] [DecidableEq α] : DecidableEq (Except ε α) :=
  fun x y =>
  match x, y with
  | .error a, .error b =>
    if h : a = b then isTrue (by rw [h])
    else isFalse (fun hc => h (Except.error.inj hc))
  | .ok a, .ok b =>
    if h : a = b then isTrue (by rw [h])
    else isFalse (fun hc => h (Except.ok.inj hc))
  | .error _, .ok _ => isFalse (fun hc => Except.noConfusion hc)
  | .ok _, .error _ => isFalse (fun hc => Except.noConfusion hc)

theorem trimHeaders_rows (tbl : InputTable) : (trimHeaders tbl).rows = tbl.rows := rfl

/-- Claim C6: when the claim-status and timestamp columns are present, any
record that reaches enrichment (i.e. any status-filtered record) whose
`last_updated_at` cannot be parsed makes the whole run abort with a parse
error carrying the offending record's raw timestamp text; no document (and
no partial output) is produced and no record is silently skipped. -/
theorem c6_parse_failure (tbl : InputTable) (today t : Int)
    (h1 : "claimStatus" ∈ (trimHeaders tbl).headers)
    (h2 : "last_updated_at" ∈ (trimHeaders tbl).headers)
    (h : ∃ r ∈ filterInProgress tbl.rows, isBadTs r.last_updated_at = true) :
    ∃ raw, runPipeline today t tbl = .error (.parseError raw) ∧
      ∃ r ∈ filterInProgress tbl.rows, r.last_updated_at = .bad raw := by
  rcases parseDays_error today _ h with ⟨raw, herr, hr⟩
  refine ⟨raw, ?_, hr⟩
  unfold runPipeline
  simp only [if_pos h1, if_pos h2, trimHeaders_rows, herr]

/-- An input with the full schema whose only in-progress row has an
unparseable timestamp. -/
def c6Table : InputTable :=
  { headers := ["claimStatus", "last_updated_at", "assigned_to_doctor", "claim_id"]
    rows := [{ claimStatus := "In Progress", assigned_to_doctor := "Dr. A",
               claim_id := "C-9", last_updated_at := .bad "not-a-date" }] }

theorem c6_parse_failure_witness :
    ∃ raw, runPipeline 0 30 c6Table = .error (.parseError raw) ∧
      ∃ r ∈ filterInProgress c6Table.rows, r.last_updated_at = .bad raw :=
  c6_parse_failure c6Table 0 30 (by decide) (by decide) (by decide)

theorem parseDays_error_shape (today : Int) (rows : List Row) :
    ∀ (e : PipelineError), parseDays today rows = .error e →
      ∃ raw, e = .parseError raw := by
  induction rows with
  | nil => intro e h; exact absurd h (by simp [parseDays])
  | cons r rs ih =>
    intro e h
    unfold parseDays at h
    cases hts : r.last_updated_at with
    | bad raw =>
      rw [hts] at h
      exact ⟨raw, (Except.error.inj h).symm⟩
    | ok date =>
      rw [hts] at h
      cases hp : parseDays today rs with
      | error e2 =>
        rw [hp] at h
        have he : e2 = e := Except.error.inj h
        exact he ▸ ih e2 hp
      | ok rest =>
        rw [hp] at h
        exact absurd h (by simp)

/-- An input missing the required `claim_id` column whose single in-progress
row also has an unparseable timestamp. -/
def c7Table : InputTable :=
  { headers := ["claimStatus", "last_updated_at", "assigned_to_doctor"]
    rows := [{ claimStatus := "In Progress", assigned_to_doctor := "Dr. A",
               claim_id := "unused", last_updated_at := .bad "garbage" }] }

/-- Claim C7 is false as stated: with the required column `claim_id` missing,
the run does not fail with a schema error naming `claim_id` before any
processing proceeds; filtering and enrichment run first, and here the
enrichment parse error surfaces instead (app.py reads `claim_id` only at
line 45). -/
theorem c7_counterexample :
    "claim_id" ∈ requiredCols ∧
    "claim_id" ∉ (trimHeaders c7Table).headers ∧
    runPipeline 0 30 c7Table = .error (.parseError "garbage") := by
  refine ⟨by decide, by decide, by decide⟩

/-- Claim C7 (amended): a missing required column always makes the run fail
with some error (and hence no output), and any missing-column error the run
surfaces names a genuinely missing required column; but the check happens at
the column's first use, not before all processing, so an earlier stage's
failure (such as a parse error) can surface instead. -/
theorem c7_missing_column (tbl : InputTable) (today t : Int)
    (h : ∃ c ∈ requiredCols, c ∉ (trimHeaders tbl).headers) :
    (∃ e, runPipeline today t tbl = .error e) ∧
    (∀ c, runPipeline today t tbl = .error (.missingColumn c) →
      c ∈ requiredCols ∧ c ∉ (trimHeaders tbl).headers) := by
  by_cases h1 : "claimStatus" ∈ (trimHeaders tbl).headers
  case neg =>
    have he : runPipeline today t tbl = .error (.missingColumn "claimStatus") := by
      unfold runPipeline
      simp only [if_neg h1]
    refine ⟨⟨_, he⟩, ?_⟩
    intro c hc
    rw [he] at hc
    simp only [Except.error.injEq, PipelineError.missingColumn.injEq] at hc
    exact hc ▸ ⟨by decide, h1⟩
  case pos =>
  by_cases h2 : "last_updated_at" ∈ (trimHeaders tbl).headers
  case neg =>
    have he : runPipeline today t tbl = .error (.missingColumn "last_updated_at") := by
      unfold runPipeline
      simp only [if_pos h1, if_neg h2]
    refine ⟨⟨_, he⟩, ?_⟩
    intro c hc
    rw [he] at hc
    simp only [Except.error.injEq, PipelineError.missingColumn.injEq] at hc
    exact hc ▸ ⟨by decide, h2⟩
  case pos =>
  cases hp : parseDays today (filterInProgress tbl.rows) with
  | error e =>
    have he : runPipeline today t tbl = .error e := by
      unfold runPipeline
      simp only [if_pos h1, if_pos h2, trimHeaders_rows, hp]
    refine ⟨⟨e, he⟩, ?_⟩
    intro c hc
    rw [he] at hc
    rcases parseDays_error_shape today _ e hp with ⟨raw, hraw⟩
    rw [hraw] at hc
    exact absurd hc (by simp)
  | ok enriched =>
    by_cases h3 : "assigned_to_doctor" ∈ (trimHeaders tbl).headers
    case neg =>
      have he : runPipeline today t tbl = .error (.missingColumn "assigned_to_doctor") := by
        unfold runPipeline
        simp only [if_pos h1, if_pos h2, trimHeaders_rows, hp, if_neg h3]
      refine ⟨⟨_, he⟩, ?_⟩
      intro c hc
      rw [he] at hc
      simp only [Except.error.injEq, PipelineError.missingColumn.injEq] at hc
      exact hc ▸ ⟨by decide, h3⟩
    case pos =>
    by_cases h4 : "claim_id" ∈ (trimHeaders tbl).headers
    case neg =>
      have he : runPipeline today t tbl = .error (.missingColumn "claim_id") := by
        unfold runPipeline
        simp only [if_pos h1, if_pos h2, trimHeaders_rows, hp, if_pos h3, if_neg h4]
      refine ⟨⟨_, he⟩, ?_⟩
      intro c hc
      rw [he] at hc
      simp only [Except.error.injEq, PipelineError.missingColumn.injEq] at hc
      exact hc ▸ ⟨by decide, h4⟩
    case pos =>
    exfalso
    rcases h with ⟨c, hcr, hcn⟩
    simp only [requiredCols, List.mem_cons, List.not_mem_nil, or_false] at hcr
    rcases hcr with rfl | rfl | rfl | rfl
    · exact hcn h1
    · exact hcn h2
    · exact hcn h3
    · exact hcn h4

theorem c7_missing_column_witness :
    (∃ e, runPipeline 0 30 c7Table = .error e) ∧
    (∀ c, runPipeline 0 30 c7Table = .error (.missingColumn c) →
      c ∈ requiredCols ∧ c ∉ (trimHeaders c7Table).headers) :=
  c7_missing_column c7Table 0 30 (by decide)

/-- Claim C8: when the schema is complete and zero rows survive the status
filter, the run raises no error and returns a well-formed document with the
title, a summary table holding only its header row, and no detail
sections. -/
theorem c8_empty_result (tbl : InputTable) (today t : Int)
    (hcols : ∀ c ∈ requiredCols, c ∈ (trimHeaders tbl).headers)
    (hempty : filterInProgress tbl.rows = []) :
    runPipeline today t tbl =
      .ok ([], [], { title := reportTitle,
                     summaryTable := [summaryHeaderRow t],
                     details := [] }) := by
  have h1 := hcols "claimStatus" (by decide)
  have h2 := hcols "last_updated_at" (by decide)
  have h3 := hcols "assigned_to_doctor" (by decide)
  have h4 := hcols "claim_id" (by decide)
  unfold runPipeline
  simp only [if_pos h1, if_pos h2, if_pos h3, if_pos h4, trimHeaders_rows, hempty]
  rfl

/-- An input with the full schema and no in-progress rows. -/
def c8Table : InputTable :=
  { headers := ["claimStatus", "last_updated_at", "assigned_to_doctor", "claim_id"]
    rows := [{ claimStatus := "Closed", assigned_to_doctor := "Dr. A",
               claim_id := "C-3", last_updated_at := .ok 10 }] }

theorem c8_empty_result_witness :
    runPipeline 0 30 c8Table =
      .ok ([], [], { title := reportTitle,
                     summaryTable := [summaryHeaderRow 30],
                     details := [] }) :=
  c8_empty_result c8Table 0 30 (by decide) (by decide)

/-- A one-row, fully-schemed input used to exercise determinism. -/
def c9Table : InputTable :=
  { headers := ["claimStatus", "last_updated_at", "assigned_to_doctor", "claim_id"]
    rows := [{ claimStatus := "In Progress", assigned_to_doctor := "Dr. A",
               claim_id := "C-4", last_updated_at := .ok 5 }] }

/-- Claim C9: the pipeline is deterministic.  The whole run is embedded as
the pure function `runPipeline` of exactly (today, threshold, input table):
two runs on equal inputs with the same "today" reference and threshold
return equal results, including the processed frame, the summaries, and the
document with its detail rows and highlight indices. -/
theorem c9_deterministic (tbl1 tbl2 : InputTable) (today t : Int) (h : tbl1 = tbl2) :
    runPipeline today t tbl1 = runPipeline today t tbl2 := by
  rw [h]

theorem c9_deterministic_witness :
    runPipeline 0 30 c9Table = runPipeline 0 30 c9Table :=
  c9_deterministic c9Table c9Table 0 30 rfl

/-- Claim C10: in the built document the summary-table data rows and the
detail sections enumerate the same doctors in the same order (so each
doctor's summary row and detail section sit at the same position), and that
common order is strictly ascending by doctor name. -/
theorem c10_summary_details_align (t : Int) (claims : List Claim) :
    (((buildDoc t (summarize t claims) claims).summaryTable.drop 1).map
        (fun row => row.headD (.str ""))) =
      (buildDoc t (summarize t claims) claims).details.map
        (fun s => CellVal.str s.heading) ∧
    List.Pairwise (· < ·)
      ((buildDoc t (summarize t claims) claims).details.map (fun s => s.heading)) := by
  constructor
  · simp only [buildDoc, summarize, List.drop_succ_cons, List.drop_zero,
      List.map_map]
    apply List.map_congr_left
    intro d _
    rfl
  · have hs := distinctDoctors_sorted claims
    simp only [buildDoc, List.map_map]
    have hmap : ((fun s => DetailSection.heading s) ∘
        fun d => buildSection t d (doctorGroup claims d)) = fun d => d := rfl
    rw [hmap]
    simpa using hs
